import Mathlib

/-!
Verification of the position-tracking and valuation engine of a personal
net-worth dashboard: `calculate_detailed_metrics` in `logic.py` (Holdings
Builder) and the module-level valuation block of `app_V7.py` (Valuation
Normalizer).  Machine reals are modelled by `ℚ`; the transaction ledger is
a list of rows; the per-ticker running state (a Python dict in the source)
is an insertion-ordered association list.
-/

/-- One ledger row (a trade event).  Fields mirror the DataFrame columns:
`code` = 代碼, `cat` = 類別, `typ` = 類型, `qty` = 數量, `price` = 單價,
`date` = 日期 (only its ordering matters, so an integer). -/
structure Row where
  code : String
  cat : String
  typ : String
  qty : ℚ
  price : ℚ
  date : Int
deriving DecidableEq, Repr

/-- Running state per ticker: `tracker[t] = {'qty': …, 'cost_basis': …}`. -/
structure TrackInfo where
  qty : ℚ
  cost_basis : ℚ
deriving DecidableEq, Repr

/-- The Python dict `tracker`, modelled as an insertion-ordered association
list. -/
abbrev Tracker := List (String × TrackInfo)

/-- Dict lookup `tracker[t]`. -/
def trFind (tr : Tracker) (t : String) : Option TrackInfo :=
  match tr with
  | [] => none
  | (k, v) :: rest => if k = t then some v else trFind rest t

/-- Dict assignment `tracker[t] = v` (updates in place, appends if absent,
preserving insertion order as a Python dict does). -/
def trSet (tr : Tracker) (t : String) (v : TrackInfo) : Tracker :=
  match tr with
  | [] => [(t, v)]
  | (k, w) :: rest => if k = t then (k, v) :: rest else (k, w) :: trSet rest t v

/-- Python `str.upper()`, modelled on the character list (ASCII case
mapping, which covers ticker symbols). -/
def upperStr (s : String) : String := ⟨s.data.map Char.toUpper⟩

/-- Python `str.strip()`: drop leading and trailing whitespace. -/
def stripStr (s : String) : String :=
  ⟨((s.data.dropWhile Char.isWhitespace).reverse.dropWhile
      Char.isWhitespace).reverse⟩

/-- `t = str(row['代碼']).strip().upper()`. -/
def normTicker (s : String) : String := upperStr (stripStr s)

/-- `if t not in tracker: tracker[t] = {'qty': 0, 'cost_basis': 0}`. -/
def trEnsure (tr : Tracker) (t : String) : Tracker :=
  if (trFind tr t).isSome then tr else trSet tr t ⟨0, 0⟩

/-- The quantity currently tracked for ticker `t` (0 when `t` is absent). -/
def trQty (tr : Tracker) (t : String) : ℚ := ((trFind tr t).getD ⟨0, 0⟩).qty

/-- The average cost currently tracked for ticker `t` (0 when absent). -/
def trCost (tr : Tracker) (t : String) : ℚ :=
  ((trFind tr t).getD ⟨0, 0⟩).cost_basis

/-- The FX factor applied when accumulating TWD figures:
`1.0 if cat == "台股" else ex_rate`. -/
def fxFactor (ex_rate : ℚ) (cat : String) : ℚ :=
  if cat = "台股" then 1 else ex_rate

/-- Total quantity bought for normalized ticker `t` in a ledger. -/
def sumBuys (rows : List Row) (t : String) : ℚ :=
  ((rows.filter (fun r => normTicker r.code == t && r.typ == "買入")).map
    Row.qty).sum

/-- Total quantity sold for normalized ticker `t` in a ledger. -/
def sumSells (rows : List Row) (t : String) : ℚ :=
  ((rows.filter (fun r => normTicker r.code == t && r.typ != "買入")).map
    Row.qty).sum

/-- One iteration of the loop body in `calculate_detailed_metrics`
(logic.py lines 72–85).  Takes the FX rate, the current tracker and
accumulated `realized_pnl_twd`, and one ledger row; returns the updated
tracker, the updated `realized_pnl_twd` and this row's `pnl`
(appended to `row_pnls_orig`). -/
def processRow (ex_rate : ℚ) (tr : Tracker) (realized : ℚ) (row : Row) :
    Tracker × ℚ × ℚ :=
  let t := normTicker row.code
  let cat := row.cat
  let tr := trEnsure tr t
  let info := (trFind tr t).getD ⟨0, 0⟩
  if row.typ = "買入" then
    let new_qty := info.qty + row.qty
    let cb :=
      if new_qty > 0 then
        (info.qty * info.cost_basis + row.qty * row.price) / new_qty
      else info.cost_basis
    (trSet tr t ⟨new_qty, cb⟩, realized, 0)
  else
    let pnl := (row.price - info.cost_basis) * row.qty
    let realized := realized + pnl * (if cat = "台股" then 1 else ex_rate)
    (trSet tr t ⟨info.qty - row.qty, info.cost_basis⟩, realized, pnl)

/-- The whole `for _, row in temp_df.iterrows()` loop: threads the tracker
and `realized_pnl_twd` through the rows and collects `row_pnls_orig`. -/
def runLedger (ex_rate : ℚ) (tr : Tracker) (realized : ℚ) :
    List Row → Tracker × ℚ × List ℚ
  | [] => (tr, realized, [])
  | r :: rs =>
    let s := processRow ex_rate tr realized r
    let s' := runLedger ex_rate s.1 s.2.1 rs
    (s'.1, s'.2.1, s.2.2 :: s'.2.2)

/-- `temp_df = df.sort_values('日期')`: sort by date ascending.  (The model
fixes a deterministic comparison sort; pandas' default `quicksort` is
likewise deterministic but does not promise a tie order.) -/
def sortByDate (df : List Row) : List Row :=
  df.mergeSort (fun a b => decide (a.date ≤ b.date))

/-- One output row of the holdings DataFrame. -/
structure Holding where
  code : String
  display_name : String
  qty : ℚ
  avg_cost : ℚ
  cat : String
deriving DecidableEq, Repr

/-- The 類別 of an emitted holding (logic.py lines 89–90):
`match = df[df['代碼'] == t]; cat = match['類別'].iloc[0] if not
match.empty else "台股"` — the first row of the ORIGINAL (unsorted) `df`
whose raw 代碼 equals the tracker key, defaulting to `"台股"`. -/
def holdingCat (df : List Row) (t : String) : String :=
  match (df.filter (fun r => r.code == t)).head? with
  | some r => r.cat
  | none => "台股"

/-- The emission loop `for t, info in tracker.items()` (logic.py lines
87–91): one `Holding` per tracker entry with `qty > 0.0001`.  `disp`
stands in for the external `get_display_name` lookup. -/
def buildHoldings (disp : String → String) (df : List Row) (tr : Tracker) :
    List Holding :=
  tr.filterMap (fun ti =>
    if ti.2.qty > 1 / 10000 then
      some ⟨ti.1, disp ti.1, ti.2.qty, ti.2.cost_basis, holdingCat df ti.1⟩
    else none)

/-- `calculate_detailed_metrics(df, ex_rate)` (logic.py lines 66–94):
returns `(holdings, realized_pnl_twd, annotated sorted ledger)`.  The
annotated ledger pairs each row of the sorted ledger with its
`每筆損益(原幣)` value. -/
def calculate_detailed_metrics (disp : String → String) (df : List Row)
    (ex_rate : ℚ) : List Holding × ℚ × List (Row × ℚ) :=
  if df.isEmpty then ([], 0, df.map (fun r => (r, 0)))
  else
    let temp_df := sortByDate df
    let s := runLedger ex_rate [] 0 temp_df
    (buildHoldings disp df s.1, s.2.1, temp_df.zip s.2.2)

/-- A holdings row after the valuation block of app_V7.py (lines 770–775)
has annotated it: 現價, 匯率, 市值(TWD), 成本(TWD), 損益(TWD), 報酬率. -/
structure ValuedHolding where
  code : String
  qty : ℚ
  avg_cost : ℚ
  cat : String
  current_price : ℚ
  fx : ℚ
  market_value_twd : ℚ
  cost_twd : ℚ
  pnl_twd : ℚ
  return_pct : ℚ
deriving DecidableEq, Repr

/-- Price lookup `holdings_df['代碼'].map(prices).fillna(0)`. -/
def lookupPrice (prices : List (String × ℚ)) (t : String) : Option ℚ :=
  match prices with
  | [] => none
  | (k, v) :: rest => if k = t then some v else lookupPrice rest t

/-- The per-holding arithmetic of the valuation block (app_V7.py lines
770–775): missing price ↦ 0; 匯率 = `ex_rate if 類別 != '台股' else 1.0`;
市值 = 現價·數量·匯率; 成本 = 平均成本·數量·匯率; 損益 = 市值 − 成本;
報酬率 = 損益 / (成本 with 0 replaced by 1) · 100. -/
def valueHolding (prices : List (String × ℚ)) (ex_rate : ℚ) (h : Holding) :
    ValuedHolding :=
  let price := (lookupPrice prices h.code).getD 0
  let fx := if h.cat ≠ "台股" then ex_rate else 1
  let mv := price * h.qty * fx
  let cost := h.avg_cost * h.qty * fx
  let pnl := mv - cost
  let ret := pnl / (if cost = 0 then 1 else cost) * 100
  ⟨h.code, h.qty, h.avg_cost, h.cat, price, fx, mv, cost, pnl, ret⟩

/-- One full valuation cycle (app_V7.py lines 756–779): Holdings Builder,
then the Valuation Normalizer over every holding, then the aggregate
totals `total_market_val`, `total_holding_cost` and
`total_pnl = (total_market_val - total_holding_cost) + realized_all`. -/
def valuationCycle (disp : String → String) (df : List Row)
    (prices : List (String × ℚ)) (ex_rate : ℚ) :
    List ValuedHolding × ℚ × List (Row × ℚ) × ℚ × ℚ × ℚ :=
  let m := calculate_detailed_metrics disp df ex_rate
  let valued := m.1.map (valueHolding prices ex_rate)
  let total_market_val := (valued.map (·.market_value_twd)).sum
  let total_holding_cost := (valued.map (·.cost_twd)).sum
  let total_pnl := (total_market_val - total_holding_cost) + m.2.1
  (valued, m.2.1, m.2.2, total_market_val, total_holding_cost, total_pnl)


/-! ### Association-list (dict) lemmas -/

lemma trFind_trSet_self (tr : Tracker) (t : String) (v : TrackInfo) :
    trFind (trSet tr t v) t = some v := by
  induction tr with
  | nil => simp [trSet, trFind]
  | cons kv rest ih =>
    obtain ⟨k, w⟩ := kv
    by_cases hk : k = t <;> simp [trSet, trFind, hk, ih]

lemma trFind_trSet_ne (tr : Tracker) (t : String) (v : TrackInfo)
    (t' : String) (h : t' ≠ t) : trFind (trSet tr t v) t' = trFind tr t' := by
  induction tr with
  | nil =>
    have ht : ¬t = t' := fun he => h he.symm
    simp [trSet, trFind, ht]
  | cons kv rest ih =>
    obtain ⟨k, w⟩ := kv
    by_cases hk : k = t
    · subst hk
      have ht : ¬k = t' := fun he => h he.symm
      simp [trSet, trFind, ht]
    · simp [trSet, trFind, hk, ih]

lemma trFind_trEnsure_self (tr : Tracker) (t : String) :
    trFind (trEnsure tr t) t = some ((trFind tr t).getD ⟨0, 0⟩) := by
  unfold trEnsure
  cases h : trFind tr t <;> simp [h, trFind_trSet_self]

lemma trFind_trEnsure_ne (tr : Tracker) (t t' : String) (h : t' ≠ t) :
    trFind (trEnsure tr t) t' = trFind tr t' := by
  unfold trEnsure
  split
  · rfl
  · exact trFind_trSet_ne tr t _ t' h

lemma trQty_trEnsure (tr : Tracker) (t t' : String) :
    trQty (trEnsure tr t) t' = trQty tr t' := by
  by_cases h : t' = t
  · subst h
    rw [trQty, trQty, trFind_trEnsure_self]
    cases hf : trFind tr t' <;> simp [hf]
  · rw [trQty, trQty, trFind_trEnsure_ne tr t t' h]

lemma trCost_trEnsure (tr : Tracker) (t t' : String) :
    trCost (trEnsure tr t) t' = trCost tr t' := by
  by_cases h : t' = t
  · subst h
    rw [trCost, trCost, trFind_trEnsure_self]
    cases hf : trFind tr t' <;> simp [hf]
  · rw [trCost, trCost, trFind_trEnsure_ne tr t t' h]

/-! ### Step lemmas for the loop body -/

lemma processRow_pnl (ex_rate : ℚ) (tr : Tracker) (rz : ℚ) (row : Row) :
    (processRow ex_rate tr rz row).2.2 =
      if row.typ = "買入" then 0
      else (row.price - trCost tr (normTicker row.code)) * row.qty := by
  by_cases ht : row.typ = "買入" <;>
    simp [processRow, ht, trCost, trFind_trEnsure_self]

lemma processRow_realized (ex_rate : ℚ) (tr : Tracker) (rz : ℚ) (row : Row) :
    (processRow ex_rate tr rz row).2.1 =
      rz + (processRow ex_rate tr rz row).2.2 * fxFactor ex_rate row.cat := by
  by_cases ht : row.typ = "買入" <;>
    simp [processRow, ht, fxFactor]

lemma trQty_processRow (ex_rate : ℚ) (tr : Tracker) (rz : ℚ) (row : Row)
    (t' : String) :
    trQty ((processRow ex_rate tr rz row).1) t' =
      if t' = normTicker row.code then
        trQty tr t' + (if row.typ = "買入" then row.qty else -row.qty)
      else trQty tr t' := by
  by_cases he : t' = normTicker row.code
  · subst he
    by_cases ht : row.typ = "買入" <;>
      simp [processRow, ht, trQty, trFind_trSet_self,
        trFind_trEnsure_self, sub_eq_add_neg]
  · by_cases ht : row.typ = "買入" <;>
      simp [processRow, ht, he, trQty, trFind_trSet_ne _ _ _ _ he,
        trFind_trEnsure_ne _ _ _ he]

lemma trCost_processRow_sell (ex_rate : ℚ) (tr : Tracker) (rz : ℚ)
    (row : Row) (hsell : row.typ ≠ "買入") (t' : String) :
    trCost ((processRow ex_rate tr rz row).1) t' = trCost tr t' := by
  by_cases he : t' = normTicker row.code
  · subst he
    simp [processRow, hsell, trCost, trFind_trSet_self, trFind_trEnsure_self]
  · simp [processRow, hsell, trCost, trFind_trSet_ne _ _ _ _ he,
      trFind_trEnsure_ne _ _ _ he]

/-! ### Whole-loop lemmas -/

lemma runLedger_cons (ex_rate : ℚ) (tr : Tracker) (rz : ℚ) (r : Row)
    (rs : List Row) :
    runLedger ex_rate tr rz (r :: rs) =
      ((runLedger ex_rate (processRow ex_rate tr rz r).1
          (processRow ex_rate tr rz r).2.1 rs).1,
       (runLedger ex_rate (processRow ex_rate tr rz r).1
          (processRow ex_rate tr rz r).2.1 rs).2.1,
       (processRow ex_rate tr rz r).2.2 ::
         (runLedger ex_rate (processRow ex_rate tr rz r).1
            (processRow ex_rate tr rz r).2.1 rs).2.2) := rfl

lemma runLedger_append (ex_rate : ℚ) (tr : Tracker) (rz : ℚ)
    (xs ys : List Row) :
    runLedger ex_rate tr rz (xs ++ ys) =
      ((runLedger ex_rate (runLedger ex_rate tr rz xs).1
          (runLedger ex_rate tr rz xs).2.1 ys).1,
       (runLedger ex_rate (runLedger ex_rate tr rz xs).1
          (runLedger ex_rate tr rz xs).2.1 ys).2.1,
       (runLedger ex_rate tr rz xs).2.2 ++
         (runLedger ex_rate (runLedger ex_rate tr rz xs).1
            (runLedger ex_rate tr rz xs).2.1 ys).2.2) := by
  induction xs generalizing tr rz with
  | nil => rfl
  | cons r rs ih =>
    rw [List.cons_append, runLedger_cons, runLedger_cons, ih]
    rfl

lemma runLedger_pnls_length (ex_rate : ℚ) (tr : Tracker) (rz : ℚ)
    (rows : List Row) :
    ((runLedger ex_rate tr rz rows).2.2).length = rows.length := by
  induction rows generalizing tr rz with
  | nil => rfl
  | cons r rs ih => simp [runLedger_cons, ih]

lemma runLedger_realized (ex_rate : ℚ) (tr : Tracker) (rz : ℚ)
    (rows : List Row) :
    (runLedger ex_rate tr rz rows).2.1 =
      rz + (List.zipWith (fun p r => p * fxFactor ex_rate r.cat)
              (runLedger ex_rate tr rz rows).2.2 rows).sum := by
  induction rows generalizing tr rz with
  | nil => simp [runLedger]
  | cons r rs ih =>
    rw [runLedger_cons]
    simp only [List.zipWith_cons_cons, List.sum_cons]
    rw [ih, processRow_realized]
    ring

lemma trQty_runLedger (ex_rate : ℚ) (tr : Tracker) (rz : ℚ)
    (rows : List Row) (t : String) :
    trQty ((runLedger ex_rate tr rz rows).1) t =
      trQty tr t + sumBuys rows t - sumSells rows t := by
  induction rows generalizing tr rz with
  | nil => simp [runLedger, sumBuys, sumSells]
  | cons r rs ih =>
    have hbuys : sumBuys (r :: rs) t =
        (if normTicker r.code = t ∧ r.typ = "買入" then r.qty else 0)
          + sumBuys rs t := by
      by_cases hc : normTicker r.code = t <;>
        by_cases ht : r.typ = "買入" <;>
        simp [sumBuys, List.filter_cons, hc, ht]
    have hsells : sumSells (r :: rs) t =
        (if normTicker r.code = t ∧ ¬r.typ = "買入" then r.qty else 0)
          + sumSells rs t := by
      by_cases hc : normTicker r.code = t <;>
        by_cases ht : r.typ = "買入" <;>
        simp [sumSells, List.filter_cons, hc, ht]
    rw [runLedger_cons]
    simp only
    rw [ih, trQty_processRow, hbuys, hsells]
    by_cases hc : t = normTicker r.code
    · by_cases ht : r.typ = "買入"
      · rw [if_pos hc, if_pos ht, if_pos ⟨hc.symm, ht⟩,
          if_neg (by simp [ht])]
        ring
      · rw [if_pos hc, if_neg ht, if_neg (by simp [ht]),
          if_pos ⟨hc.symm, ht⟩]
        ring
    · have hc2 : ¬(normTicker r.code = t) := fun h => hc h.symm
      rw [if_neg hc, if_neg (by simp [hc2]), if_neg (by simp [hc2])]
      ring

/-! ### Dict-key invariants -/

/-- The dict's key list, in insertion order. -/
def trKeys (tr : Tracker) : List String := tr.map Prod.fst

lemma trFind_eq_none_iff (tr : Tracker) (t : String) :
    trFind tr t = none ↔ t ∉ trKeys tr := by
  induction tr with
  | nil => simp [trFind, trKeys]
  | cons kv rest ih =>
    obtain ⟨k, w⟩ := kv
    by_cases hk : k = t
    · subst hk
      simp [trFind, trKeys]
    · have hk' : ¬t = k := fun h => hk h.symm
      simp [trFind, trKeys, hk, hk', ih]

lemma trFind_cons (k : String) (w : TrackInfo) (rest : Tracker)
    (t : String) :
    trFind ((k, w) :: rest) t = if k = t then some w else trFind rest t := rfl

lemma trSet_cons (k : String) (w : TrackInfo) (rest : Tracker) (t : String)
    (v : TrackInfo) :
    trSet ((k, w) :: rest) t v =
      if k = t then (k, v) :: rest else (k, w) :: trSet rest t v := rfl

lemma trKeys_cons (k : String) (w : TrackInfo) (rest : Tracker) :
    trKeys ((k, w) :: rest) = k :: trKeys rest := rfl

lemma trKeys_trSet_of_mem (tr : Tracker) (t : String) (v : TrackInfo)
    (h : t ∈ trKeys tr) : trKeys (trSet tr t v) = trKeys tr := by
  induction tr with
  | nil => simp [trKeys] at h
  | cons kv rest ih =>
    obtain ⟨k, w⟩ := kv
    by_cases hk : k = t
    · rw [trSet_cons, if_pos hk, trKeys_cons, trKeys_cons]
    · have hmem : t ∈ trKeys rest := by
        rw [trKeys_cons, List.mem_cons] at h
        rcases h with h1 | h2
        · exact absurd h1.symm hk
        · exact h2
      rw [trSet_cons, if_neg hk, trKeys_cons, trKeys_cons, ih hmem]

lemma trKeys_trSet_of_not_mem (tr : Tracker) (t : String) (v : TrackInfo)
    (h : t ∉ trKeys tr) : trKeys (trSet tr t v) = trKeys tr ++ [t] := by
  induction tr with
  | nil => simp [trSet, trKeys]
  | cons kv rest ih =>
    obtain ⟨k, w⟩ := kv
    have hk : ¬k = t := by
      intro he
      exact h (by rw [trKeys_cons, he]; exact List.mem_cons_self _ _)
    have hrest : t ∉ trKeys rest := fun hm =>
      h (by rw [trKeys_cons]; exact List.mem_cons_of_mem _ hm)
    rw [trSet_cons, if_neg hk, trKeys_cons, trKeys_cons, ih hrest,
      List.cons_append]

lemma trKeys_nodup_trSet (tr : Tracker) (t : String) (v : TrackInfo)
    (h : (trKeys tr).Nodup) : (trKeys (trSet tr t v)).Nodup := by
  by_cases hm : t ∈ trKeys tr
  · rwa [trKeys_trSet_of_mem tr t v hm]
  · rw [trKeys_trSet_of_not_mem tr t v hm]
    simp [List.nodup_append, h, hm]

lemma trKeys_nodup_trEnsure (tr : Tracker) (t : String)
    (h : (trKeys tr).Nodup) : (trKeys (trEnsure tr t)).Nodup := by
  unfold trEnsure
  split
  · exact h
  · exact trKeys_nodup_trSet tr t _ h

lemma trKeys_nodup_processRow (ex_rate : ℚ) (tr : Tracker) (rz : ℚ)
    (row : Row) (h : (trKeys tr).Nodup) :
    (trKeys ((processRow ex_rate tr rz row).1)).Nodup := by
  have h1 := trKeys_nodup_trEnsure tr (normTicker row.code) h
  by_cases ht : row.typ = "買入"
  · simp only [processRow, ht, eq_self_iff_true, if_true]
    exact trKeys_nodup_trSet _ _ _ h1
  · simp only [processRow, ht, if_false]
    exact trKeys_nodup_trSet _ _ _ h1

lemma trKeys_nodup_runLedger (ex_rate : ℚ) (tr : Tracker) (rz : ℚ)
    (rows : List Row) (h : (trKeys tr).Nodup) :
    (trKeys ((runLedger ex_rate tr rz rows).1)).Nodup := by
  induction rows generalizing tr rz with
  | nil => exact h
  | cons r rs ih =>
    rw [runLedger_cons]
    exact ih _ _ (trKeys_nodup_processRow ex_rate tr rz r h)

lemma mem_of_trFind (tr : Tracker) (t : String) (v : TrackInfo)
    (h : trFind tr t = some v) : (t, v) ∈ tr := by
  induction tr with
  | nil => simp [trFind] at h
  | cons kv rest ih =>
    obtain ⟨k, w⟩ := kv
    rw [trFind_cons] at h
    by_cases hk : k = t
    · rw [if_pos hk] at h
      injection h with hwv
      subst hk
      subst hwv
      exact List.mem_cons_self _ _
    · rw [if_neg hk] at h
      exact List.mem_cons_of_mem _ (ih h)

lemma trFind_of_mem (tr : Tracker) (t : String) (v : TrackInfo)
    (hnd : (trKeys tr).Nodup) (h : (t, v) ∈ tr) : trFind tr t = some v := by
  induction tr with
  | nil => simp at h
  | cons kv rest ih =>
    obtain ⟨k, w⟩ := kv
    rw [trKeys_cons, List.nodup_cons] at hnd
    rw [trFind_cons]
    rcases List.mem_cons.mp h with h1 | h2
    · injection h1 with ht hv
      subst ht
      subst hv
      simp
    · by_cases hk : k = t
      · subst hk
        exact absurd (List.mem_map_of_mem Prod.fst h2) hnd.1
      · rw [if_neg hk]
        exact ih hnd.2 h2

/-! ### Holdings-emission and valuation lemmas -/

lemma head?_filter_eq_find? (p : Row → Bool) (df : List Row) :
    (df.filter p).head? = df.find? p := by
  induction df with
  | nil => rfl
  | cons r rs ih =>
    by_cases hp : p r <;> simp [List.filter_cons, List.find?_cons, hp, ih]

lemma mem_buildHoldings_iff (disp : String → String) (df : List Row)
    (tr : Tracker) (h : Holding) :
    h ∈ buildHoldings disp df tr ↔
      ∃ ti ∈ tr, ti.2.qty > 1 / 10000 ∧
        h = ⟨ti.1, disp ti.1, ti.2.qty, ti.2.cost_basis,
              holdingCat df ti.1⟩ := by
  simp only [buildHoldings, List.mem_filterMap]
  constructor
  · rintro ⟨ti, hmem, hsome⟩
    by_cases hq : ti.2.qty > 1 / 10000
    · rw [if_pos hq] at hsome
      injection hsome with he
      exact ⟨ti, hmem, hq, he.symm⟩
    · rw [if_neg hq] at hsome
      exact absurd hsome (by simp)
  · rintro ⟨ti, hmem, hq, rfl⟩
    exact ⟨ti, hmem, by rw [if_pos hq]⟩

lemma trQty_gt_iff (tr : Tracker) (t : String)
    (hnd : (trKeys tr).Nodup) :
    trQty tr t > 1 / 10000 ↔
      ∃ v, (t, v) ∈ tr ∧ v.qty > 1 / 10000 := by
  constructor
  · intro h
    cases hf : trFind tr t with
    | none =>
      exfalso
      rw [trQty, hf] at h
      simp only [Option.getD_none] at h
      norm_num at h
    | some v =>
      rw [trQty, hf] at h
      simp only [Option.getD_some] at h
      exact ⟨v, mem_of_trFind tr t v hf, h⟩
  · rintro ⟨v, hm, hq⟩
    rw [trQty, trFind_of_mem tr t v hnd hm]
    exact hq

lemma valueHolding_return_pct_eq (prices : List (String × ℚ)) (ex_rate : ℚ)
    (h : Holding) :
    (valueHolding prices ex_rate h).return_pct =
      (valueHolding prices ex_rate h).pnl_twd /
        (if (valueHolding prices ex_rate h).cost_twd = 0 then 1
         else (valueHolding prices ex_rate h).cost_twd) * 100 := rfl

lemma valueHolding_pnl_eq (prices : List (String × ℚ)) (ex_rate : ℚ)
    (h : Holding) :
    (valueHolding prices ex_rate h).pnl_twd =
      (valueHolding prices ex_rate h).market_value_twd -
        (valueHolding prices ex_rate h).cost_twd := rfl

/-! ### The claims -/

/-- C1: for every ledger and FX rate, each sell row's per-row realized P&L
in native currency equals `(unit_price − current average_cost) × quantity`
(buy rows contribute exactly 0), and `realized_pnl_twd` is the sum over
the rows of that native P&L times 1.0 for 台股 rows and the FX rate
otherwise. -/
theorem claim_C1 (ex_rate : ℚ) (rows : List Row) :
    (runLedger ex_rate [] 0 rows).2.1 =
      (List.zipWith (fun p r => p * fxFactor ex_rate r.cat)
        (runLedger ex_rate [] 0 rows).2.2 rows).sum ∧
    ∀ pre r post, rows = pre ++ r :: post →
      ((runLedger ex_rate [] 0 rows).2.2).getD pre.length 0 =
        if r.typ = "買入" then 0
        else (r.price - trCost ((runLedger ex_rate [] 0 pre).1)
                (normTicker r.code)) * r.qty := by
  constructor
  · have := runLedger_realized ex_rate [] 0 rows
    simpa using this
  · rintro pre r post rfl
    rw [runLedger_append]
    simp only
    rw [List.getD_append_right _ _ _ _
      (by rw [runLedger_pnls_length])]
    rw [runLedger_pnls_length, Nat.sub_self]
    rw [runLedger_cons]
    simp only [List.getD_cons_zero]
    exact processRow_pnl ex_rate _ _ r

/-- C1 witness: buy 10@100 then sell 4@150 of a foreign-equity ticker at
FX rate 32.5 — the sell row's native P&L is `(150−100)·4 = 200`. -/
theorem claim_C1_witness :
    ((runLedger (325 / 10) [] 0
        [⟨"AAPL", "美股", "買入", 10, 100, 1⟩,
         ⟨"AAPL", "美股", "賣出", 4, 150, 2⟩]).2.2).getD 1 0 = 200 := by
  have h := (claim_C1 (325 / 10)
      [⟨"AAPL", "美股", "買入", 10, 100, 1⟩,
       ⟨"AAPL", "美股", "賣出", 4, 150, 2⟩]).2
      [⟨"AAPL", "美股", "買入", 10, 100, 1⟩]
      ⟨"AAPL", "美股", "賣出", 4, 150, 2⟩ [] rfl
  rw [show ([⟨"AAPL", "美股", "買入", 10, 100, 1⟩] : List Row).length = 1
    from rfl] at h
  rw [h]
  simp +decide [runLedger, processRow, trEnsure, trFind, trSet, trCost,
    normTicker, upperStr, stripStr]
  norm_num

/-- C2: a sell never changes the stored `average_cost` of any ticker: in
any ledger split as `pre ++ r :: post` with `r` a sell, the cost basis
after processing `r` equals the cost basis just before it. -/
theorem claim_C2 (ex_rate : ℚ) (rows pre : List Row) (r : Row)
    (post : List Row) (t : String) (hsplit : rows = pre ++ r :: post)
    (hsell : r.typ ≠ "買入") :
    trCost ((runLedger ex_rate [] 0 (rows.take (pre.length + 1))).1) t =
      trCost ((runLedger ex_rate [] 0 (rows.take pre.length)).1) t := by
  subst hsplit
  have h1 : (pre ++ r :: post).take pre.length = pre := List.take_left pre _
  have h2 : (pre ++ r :: post).take (pre.length + 1) = pre ++ [r] := by
    rw [List.take_append 1]
    rfl
  rw [h1, h2, runLedger_append]
  simp only
  rw [runLedger_cons]
  simp only
  exact trCost_processRow_sell ex_rate _ _ r hsell t

/-- C2 witness: after buying 10@100 and then selling 4@150, the average
cost of the ticker is still what it was before the sell. -/
theorem claim_C2_witness :
    trCost ((runLedger 1 [] 0
      ([⟨"T", "台股", "買入", 10, 100, 1⟩,
        ⟨"T", "台股", "賣出", 4, 150, 2⟩].take 2)).1) "T" =
    trCost ((runLedger 1 [] 0
      ([⟨"T", "台股", "買入", 10, 100, 1⟩,
        ⟨"T", "台股", "賣出", 4, 150, 2⟩].take 1)).1) "T" :=
  claim_C2 1 _ [⟨"T", "台股", "買入", 10, 100, 1⟩]
    ⟨"T", "台股", "賣出", 4, 150, 2⟩ [] "T" rfl (by decide)

/-- C3: after processing the whole ledger in date order, the tracked
running quantity of each ticker is the sum of its bought quantities minus
the sum of its sold quantities (even if that is negative). -/
theorem claim_C3 (ex_rate : ℚ) (rows : List Row) (t : String) :
    trQty ((runLedger ex_rate [] 0 (sortByDate rows)).1) t =
      sumBuys rows t - sumSells rows t := by
  have hperm : (sortByDate rows).Perm rows :=
    List.mergeSort_perm rows _
  have hb : sumBuys (sortByDate rows) t = sumBuys rows t :=
    ((hperm.filter _).map Row.qty).sum_eq
  have hs : sumSells (sortByDate rows) t = sumSells rows t :=
    ((hperm.filter _).map Row.qty).sum_eq
  rw [trQty_runLedger, hb, hs]
  simp [trQty, trFind]

/-- C5: the holdings output contains a ticker exactly when its final
running quantity exceeds the epsilon 0.0001; the aggregate
`realized_pnl_twd` is computed independently of that filter. -/
theorem claim_C5 (disp : String → String) (df : List Row) (ex_rate : ℚ)
    (t : String) :
    (∃ h ∈ (calculate_detailed_metrics disp df ex_rate).1, h.code = t) ↔
      trQty ((runLedger ex_rate [] 0 (sortByDate df)).1) t > 1 / 10000 := by
  by_cases hdf : df.isEmpty = true
  · have hdf' : df = [] := List.isEmpty_iff.mp hdf
    subst hdf'
    constructor
    · rintro ⟨h, hmem, -⟩
      simp [calculate_detailed_metrics] at hmem
    · intro hq
      rw [sortByDate, List.mergeSort_nil] at hq
      norm_num [runLedger, trQty, trFind] at hq
  · have hh : (calculate_detailed_metrics disp df ex_rate).1 =
        buildHoldings disp df ((runLedger ex_rate [] 0 (sortByDate df)).1) := by
      rw [calculate_detailed_metrics, if_neg hdf]
    rw [hh]
    have hnd := trKeys_nodup_runLedger ex_rate [] 0 (sortByDate df)
      (by simp [trKeys])
    rw [trQty_gt_iff _ _ hnd]
    constructor
    · rintro ⟨h, hmem, hcode⟩
      obtain ⟨ti, hti, hq2, rfl⟩ :=
        (mem_buildHoldings_iff disp df _ h).mp hmem
      have ht : ti.1 = t := hcode
      subst ht
      exact ⟨ti.2, hti, hq2⟩
    · rintro ⟨v, hm, hq2⟩
      refine ⟨⟨t, disp t, v.qty, v.cost_basis, holdingCat df t⟩, ?_, rfl⟩
      exact (mem_buildHoldings_iff disp df _ _).mpr ⟨(t, v), hm, hq2, rfl⟩

/-- C6: `return_pct = pnl_twd / cost_twd * 100` with the denominator
replaced by 1 when `cost_twd = 0` (so `return_pct = pnl_twd * 100` in
that case); the denominator actually used is never zero. -/
theorem claim_C6 (prices : List (String × ℚ)) (ex_rate : ℚ) (h : Holding) :
    ((if (valueHolding prices ex_rate h).cost_twd = 0 then (1 : ℚ)
        else (valueHolding prices ex_rate h).cost_twd) ≠ 0) ∧
    ((valueHolding prices ex_rate h).cost_twd = 0 →
      (valueHolding prices ex_rate h).return_pct =
        (valueHolding prices ex_rate h).pnl_twd * 100) ∧
    ((valueHolding prices ex_rate h).cost_twd ≠ 0 →
      (valueHolding prices ex_rate h).return_pct =
        (valueHolding prices ex_rate h).pnl_twd /
          (valueHolding prices ex_rate h).cost_twd * 100) := by
  refine ⟨?_, ?_, ?_⟩
  · by_cases h0 : (valueHolding prices ex_rate h).cost_twd = 0 <;>
      simp [h0]
  · intro h0
    rw [valueHolding_return_pct_eq, if_pos h0, div_one]
  · intro h0
    rw [valueHolding_return_pct_eq, if_neg h0]

/-- C6 witness: the P6 scenario — average cost 0, quantity 3, price 50 —
has `cost_twd = 0` and `return_pct = pnl_twd * 100`. -/
theorem claim_C6_witness :
    (valueHolding [("X", 50)] 1 ⟨"X", "X", 3, 0, "台股"⟩).return_pct =
      (valueHolding [("X", 50)] 1 ⟨"X", "X", 3, 0, "台股"⟩).pnl_twd * 100 :=
  (claim_C6 [("X", 50)] 1 ⟨"X", "X", 3, 0, "台股"⟩).2.1
    (by norm_num [valueHolding, lookupPrice])

/-- C7 as stated is false: with a missing price AND `cost_twd = 0` the
return percentage is 0, not −100%. -/
theorem claim_C7_counterexample :
    lookupPrice [] "X" = none ∧
    (valueHolding [] (325 / 10)
        ⟨"X", "X", 3, 0, "台股"⟩).return_pct ≠ -100 := by
  constructor
  · rfl
  · norm_num [valueHolding, lookupPrice]

/-- C7 (amended): a holding whose ticker is missing from the price mapping
gets `current_price = 0` and `market_value_twd = 0`, and `return_pct` is
−100% whenever `cost_twd ≠ 0` (when `cost_twd = 0` it is 0 instead); no
error is raised. -/
theorem claim_C7 (prices : List (String × ℚ)) (ex_rate : ℚ) (h : Holding)
    (hmiss : lookupPrice prices h.code = none) :
    (valueHolding prices ex_rate h).current_price = 0 ∧
    (valueHolding prices ex_rate h).market_value_twd = 0 ∧
    ((valueHolding prices ex_rate h).cost_twd ≠ 0 →
      (valueHolding prices ex_rate h).return_pct = -100) ∧
    ((valueHolding prices ex_rate h).cost_twd = 0 →
      (valueHolding prices ex_rate h).return_pct = 0) := by
  have hp : (valueHolding prices ex_rate h).current_price = 0 := by
    simp [valueHolding, hmiss]
  have hmv : (valueHolding prices ex_rate h).market_value_twd = 0 := by
    simp [valueHolding, hmiss]
  refine ⟨hp, hmv, ?_, ?_⟩
  · intro h0
    rw [valueHolding_return_pct_eq, if_neg h0, valueHolding_pnl_eq, hmv,
      zero_sub, neg_div, div_self h0]
    norm_num
  · intro h0
    rw [valueHolding_return_pct_eq, if_pos h0, valueHolding_pnl_eq, hmv,
      h0]
    norm_num

/-- C7 witness: a foreign-equity holding with cost 3·2 and no price entry
shows price 0, market value 0 and a −100% return. -/
theorem claim_C7_witness :
    (valueHolding [("B", 5)] 7 ⟨"A", "A", 2, 3, "美股"⟩).current_price = 0 ∧
    (valueHolding [("B", 5)] 7 ⟨"A", "A", 2, 3, "美股"⟩).market_value_twd
      = 0 ∧
    (valueHolding [("B", 5)] 7 ⟨"A", "A", 2, 3, "美股"⟩).return_pct
      = -100 := by
  have h := claim_C7 [("B", 5)] 7 ⟨"A", "A", 2, 3, "美股"⟩ (by rfl)
  refine ⟨h.1, h.2.1, h.2.2.1 ?_⟩
  simp +decide [valueHolding, lookupPrice]

/-- C8: starting from an empty position, buying 10@100 then 10@200 gives
average cost 150, and so does processing the two buys in the other
order. -/
theorem claim_C8 (ex_rate : ℚ) :
    trCost ((runLedger ex_rate [] 0
      [⟨"T", "台股", "買入", 10, 100, 1⟩,
       ⟨"T", "台股", "買入", 10, 200, 2⟩]).1) "T" = 150 ∧
    trCost ((runLedger ex_rate [] 0
      [⟨"T", "台股", "買入", 10, 200, 2⟩,
       ⟨"T", "台股", "買入", 10, 100, 1⟩]).1) "T" = 150 := by
  constructor <;>
  · simp +decide [runLedger, processRow, trEnsure, trFind, trSet, trCost,
      normTicker, upperStr, stripStr]
    norm_num

/-- C9: the valuation cycle is a pure function — two runs on equal inputs
(ledger, display-name source, price mapping, FX rate) give equal outputs:
holdings rows, realized P&L, annotated ledger and aggregate totals. -/
theorem claim_C9 (disp₁ disp₂ : String → String) (df₁ df₂ : List Row)
    (prices₁ prices₂ : List (String × ℚ)) (rate₁ rate₂ : ℚ)
    (hdisp : disp₁ = disp₂) (hdf : df₁ = df₂) (hp : prices₁ = prices₂)
    (hr : rate₁ = rate₂) :
    valuationCycle disp₁ df₁ prices₁ rate₁ =
      valuationCycle disp₂ df₂ prices₂ rate₂ := by
  subst hdisp
  subst hdf
  subst hp
  subst hr
  rfl

/-- C9 witness: two identical concrete runs coincide. -/
theorem claim_C9_witness :
    valuationCycle id [⟨"T", "台股", "買入", 1, 2, 3⟩] [("T", 5)] 32 =
      valuationCycle id [⟨"T", "台股", "買入", 1, 2, 3⟩] [("T", 5)] 32 :=
  claim_C9 id id _ _ _ _ 32 32 rfl rfl rfl rfl

/-- C10: an emitted holding's 類別 comes from the first row of the
original (unsorted) ledger whose raw 代碼 equals the normalized tracker
key; when no row matches exactly it defaults to 台股, and the valuation
block then applies FX factor 1. -/
theorem claim_C10 (disp : String → String) (df : List Row) (ex_rate : ℚ)
    (prices : List (String × ℚ)) (h : Holding)
    (hmem : h ∈ (calculate_detailed_metrics disp df ex_rate).1) :
    h.cat = ((df.find? (fun r => r.code == h.code)).map Row.cat).getD
      "台股" ∧
    (df.find? (fun r => r.code == h.code) = none →
      h.cat = "台股" ∧ (valueHolding prices ex_rate h).fx = 1) := by
  have hcat : h.cat = holdingCat df h.code := by
    by_cases hdf : df.isEmpty = true
    · rw [calculate_detailed_metrics, if_pos hdf] at hmem
      simp at hmem
    · have hh : (calculate_detailed_metrics disp df ex_rate).1 =
          buildHoldings disp df
            ((runLedger ex_rate [] 0 (sortByDate df)).1) := by
        rw [calculate_detailed_metrics, if_neg hdf]
      rw [hh] at hmem
      obtain ⟨ti, hti, hq, rfl⟩ :=
        (mem_buildHoldings_iff disp df _ h).mp hmem
      rfl
  have hc2 : holdingCat df h.code =
      ((df.find? (fun r => r.code == h.code)).map Row.cat).getD "台股" := by
    cases hf : df.find? (fun r => r.code == h.code) with
    | none =>
      rw [holdingCat, head?_filter_eq_find?, hf]
      rfl
    | some r =>
      rw [holdingCat, head?_filter_eq_find?, hf]
      simp
  refine ⟨hcat.trans hc2, fun hnone => ?_⟩
  have htai : h.cat = "台股" := by
    rw [hcat, holdingCat, head?_filter_eq_find?, hnone]
  exact ⟨htai, by simp [valueHolding, htai]⟩

/-- C10 witness: a ledger storing the ticker in lower case (`"aapl"`)
emits a holding keyed `"AAPL"` with no exact 代碼 match, so its 類別
defaults to 台股 and the valuation block applies FX factor 1 — even
though the row says 美股. -/
theorem claim_C10_witness :
    (⟨"AAPL", "AAPL", 5, 10, "台股"⟩ : Holding).cat =
      ((([⟨"aapl", "美股", "買入", 5, 10, 1⟩] : List Row).find?
          (fun r => r.code == "AAPL")).map Row.cat).getD "台股" ∧
    (([⟨"aapl", "美股", "買入", 5, 10, 1⟩] : List Row).find?
        (fun r => r.code == "AAPL") = none →
      (⟨"AAPL", "AAPL", 5, 10, "台股"⟩ : Holding).cat = "台股" ∧
      (valueHolding [] 2 ⟨"AAPL", "AAPL", 5, 10, "台股"⟩).fx = 1) := by
  refine claim_C10 id [⟨"aapl", "美股", "買入", 5, 10, 1⟩] 2 []
    ⟨"AAPL", "AAPL", 5, 10, "台股"⟩ ?_
  have hs : sortByDate [⟨"aapl", "美股", "買入", 5, 10, 1⟩] =
      [⟨"aapl", "美股", "買入", 5, 10, 1⟩] :=
    List.mergeSort_singleton _
  simp +decide [calculate_detailed_metrics, hs, runLedger, processRow,
    trEnsure, trFind, trSet, normTicker, upperStr, stripStr,
    buildHoldings, holdingCat]
  norm_num
